import Mathlib

/-!
Verification of the result pipeline and retry engine of the QLDB Node.js driver.

The buffered `Result` class (src/Result.ts, re-exported from index.ts) is embedded
shallowly: the `while (currentPage.NextPageToken)` loop of `_fetchResultPages`
becomes a fuel-indexed recursion (`none` marks fuel exhaustion, i.e. an infinite
token chain), the thrown `ClientException` of `_handleBlob` becomes `Except`,
and the `aws-sdk` protocol shapes (`Page`, `ValueHolder`, `FetchPageResult`)
become structures.  The external `ion-js` decoder and the components whose
sources are not available (`ResultStream`, the driver retry loop) are modelled
from the specification and carry a doc comment saying so.
-/

/-- The `IonBinary` payload slot of the aws-sdk `ValueHolder`: it may arrive as a
`Buffer`, a `Uint8Array`, a `string`, or a `Blob` (any other representation).
Byte contents are lists of bytes; a JS string is kept as a `String`. -/
inductive IonBinary where
  | buffer (bytes : List Nat)
  | uint8Array (bytes : List Nat)
  | str (s : String)
  | blob (bytes : List Nat)
deriving DecidableEq, Repr

/-- Return type of `Result._handleBlob`: `Buffer | Uint8Array | string`. -/
inductive NormalizedBinary where
  | buffer (bytes : List Nat)
  | uint8Array (bytes : List Nat)
  | str (s : String)
deriving DecidableEq, Repr

/-- The byte content a byte-like representation carries (a JS string is read as
its code units). -/
def NormalizedBinary.content : NormalizedBinary → List Nat
  | .buffer b => b
  | .uint8Array b => b
  | .str s => s.data.map Char.toNat

/-- Modelled from the spec: the external `ion-js` `makeReader` (out of scope per
spec section 1) decodes a byte-like payload into a `Reader`; per spec section 4.2 the three
byte-like representations of the same bytes must decode identically, so a
`Reader` is determined by the byte content of its input. -/
structure Reader where
  ionData : List Nat
deriving DecidableEq, Repr

/-- Modelled from the spec: `ion-js` `makeReader`. -/
def makeReader (n : NormalizedBinary) : Reader :=
  ⟨n.content⟩

/-- `ClientException` from src/errors/Errors: a local client fault carrying a message. -/
structure ClientException where
  message : String
deriving DecidableEq, Repr

/-- aws-sdk `ValueHolder`: one encoded value of a page. -/
structure ValueHolder where
  IonBinary : IonBinary
deriving DecidableEq, Repr

/-- aws-sdk `Page`: `Values` is an optional list of value holders (the field may
be absent), `NextPageToken` an optional continuation token. -/
structure Page where
  Values : Option (List ValueHolder)
  NextPageToken : Option String
deriving DecidableEq, Repr

/-- aws-sdk `FetchPageResult`: the envelope returned by `communicator.fetchPage`. -/
structure FetchPageResult where
  Page : Page
deriving DecidableEq, Repr

/-- The `Communicator` as `Result` uses it: its `fetchPage(txnId, token)` behavior.
Each call is one network round trip; the model is its response function. -/
structure Communicator where
  fetchPage : String → String → FetchPageResult

namespace Result

/-- `Result._handleBlob` (src/Result.ts lines 86-97): accept a `Buffer`, a
`Uint8Array` or a `string` unchanged; any other representation throws
`ClientException("Unexpected Blob returned from QLDB.")`. -/
def _handleBlob : IonBinary → Except ClientException NormalizedBinary
  | .buffer b => .ok (.buffer b)
  | .uint8Array b => .ok (.uint8Array b)
  | .str s => .ok (.str s)
  | .blob _ => .error ⟨"Unexpected Blob returned from QLDB."⟩

/-- The guard `currentPage.Values && currentPage.Values.length > 0` of
`_fetchResultPages`. -/
def hasValues (p : Page) : Bool :=
  match p.Values with
  | some vs => vs.length > 0
  | none => false

/-- The values a page carries (`[]` when the `Values` field is absent). -/
def pageValues (p : Page) : List ValueHolder :=
  p.Values.getD []

/-- The conditional push `if (Values && Values.length > 0) pageValuesArray.push(Values)`
applied to accumulator `acc`. -/
def pushValues (acc : List (List ValueHolder)) (p : Page) : List (List ValueHolder) :=
  if hasValues p then acc ++ [pageValues p] else acc

/-- The `while (currentPage.NextPageToken)` loop of `_fetchResultPages`
(src/Result.ts lines 112-119), fuel-indexed: each iteration fetches the next
page and pushes its values when non-empty.  Returns the accumulated
`pageValuesArray` together with the number of `communicator.fetchPage` calls
made; `none` means the fuel ran out before a page without a token was seen. -/
def fetchLoop (txnId : String) (communicator : Communicator) :
    Nat → Page → List (List ValueHolder) → Option (List (List ValueHolder) × Nat)
  | fuel, currentPage, acc =>
    match currentPage.NextPageToken with
    | none => some (acc, 0)
    | some tok =>
      match fuel with
      | 0 => none
      | fuel + 1 =>
        let nextPage := ((communicator.fetchPage txnId tok)).Page
        (fetchLoop txnId communicator fuel nextPage (pushValues acc nextPage)).map
          (fun r => (r.1, r.2 + 1))

/-- The inner `forEach` of `_fetchResultPages` (src/Result.ts lines 122-124):
decode each value holder of one page in order; a thrown `ClientException`
aborts the whole construction. -/
def readHolders : List ValueHolder → Except ClientException (List Reader)
  | [] => .ok []
  | v :: vs => do
    let b ← _handleBlob v.IonBinary
    let rest ← readHolders vs
    pure (makeReader b :: rest)

/-- The outer `forEach` of `_fetchResultPages` (src/Result.ts lines 121-125):
build the flat `readerList` from the accumulated `pageValuesArray`. -/
def buildReaderList : List (List ValueHolder) → Except ClientException (List Reader)
  | [] => .ok []
  | vs :: rest => do
    let rs ← readHolders vs
    let more ← buildReaderList rest
    pure (rs ++ more)

/-- `Result._fetchResultPages` (src/Result.ts lines 106-127): push the initial
page's values when non-empty, fetch pages while a continuation token is
present, then decode every held value in page order. -/
def _fetchResultPages (txnId : String) (page : Page) (communicator : Communicator)
    (fuel : Nat) : Option (Except ClientException (List Reader)) :=
  (fetchLoop txnId communicator fuel page (pushValues [] page)).map
    (fun r => buildReaderList r.1)

end Result

/-- The `Result` class: its only field is the private `_resultList`. -/
structure Result where
  _resultList : List Reader
deriving DecidableEq, Repr

namespace Result

/-- `Result.getResultList` (src/Result.ts lines 75-77): `return this._resultList.slice()`.
As a value, the copy equals the stored list (the aliasing behavior of `slice`
is modelled separately on an explicit heap). -/
def getResultList (r : Result) : List Reader :=
  r._resultList

/-- `Result.create` (src/Result.ts lines 56-59): buffer all pages and wrap the
reader list in a `Result`. -/
def create (txnId : String) (page : Page) (communicator : Communicator)
    (fuel : Nat) : Option (Except ClientException Result) :=
  (_fetchResultPages txnId page communicator fuel).map (fun e => e.map Result.mk)

end Result

/-- `ps` is the page chain realized by `communicator` for transaction `txnId`:
the chain is non-empty, each page but the last links to the next by its
continuation token, and the last page has no token. -/
def PageChain (txnId : String) (communicator : Communicator) : List Page → Prop
  | [] => False
  | [p] => p.NextPageToken = none
  | p :: q :: rest =>
    (∃ tok, p.NextPageToken = some tok ∧ ((communicator.fetchPage txnId tok)).Page = q)
      ∧ PageChain txnId communicator (q :: rest)

/-- `ib` is one of the three byte-like representations accepted by
`_handleBlob` (`Buffer`, `Uint8Array`, `string`). -/
def isByteLike : IonBinary → Bool
  | .buffer _ => true
  | .uint8Array _ => true
  | .str _ => true
  | .blob _ => false

/-- A page with an absent `Values` field replaced by the explicit empty list it
is claimed to behave like (a statement device: the claim compares the two). -/
def normalizePage (p : Page) : Page :=
  ⟨some (Result.pageValues p), p.NextPageToken⟩

/-- A communicator whose every returned page is normalized by `normalizePage`. -/
def normalizeComm (communicator : Communicator) : Communicator :=
  ⟨fun txnId tok => ⟨normalizePage ((communicator.fetchPage txnId tok)).Page⟩⟩

/-- One `communicator.fetchPage(txnId, token)` call, for the call-trace
instrumentation: the pair of its two arguments. -/
def FetchCall := String × String

/-- `Result.getResultList` in call-trace-instrumented form: the method body
`return this._resultList.slice()` contains no `Communicator` operation, so its
embedding returns the copy and leaves the trace of fetch calls unchanged. -/
def Result.getResultListTraced (r : Result) (trace : List FetchCall) :
    List Reader × List FetchCall :=
  (Result.getResultList r, trace)

/-- `n` consecutive `getResultList()` calls on `r`, threading the call trace:
the outputs in order, and the final trace. -/
def Result.iterGetResultList (r : Result) :
    Nat → List FetchCall → List (List Reader) × List FetchCall
  | 0, trace => ([], trace)
  | n + 1, trace =>
    let step := Result.getResultListTraced r trace
    let rest := Result.iterGetResultList r n step.2
    (step.1 :: rest.1, rest.2)

/-- A heap of JS arrays of readers: an array value is a reference (an index)
into the heap, so aliasing and in-place mutation are expressible. -/
structure Heap where
  arrays : List (List Reader)

/-- Dereference an array. -/
def Heap.readArr (h : Heap) (ref : Nat) : List Reader :=
  h.arrays.getD ref []

/-- In-place mutation of the array behind `ref` (covers push, pop and element
replacement: each replaces the contents behind the same reference). -/
def Heap.writeArr (h : Heap) (ref : Nat) (v : List Reader) : Heap :=
  ⟨h.arrays.set ref v⟩

/-- `arr.slice()`: allocate a fresh array holding a copy of the contents of
`ref` and return the new reference. -/
def Heap.slice (h : Heap) (ref : Nat) : Nat × Heap :=
  (h.arrays.length, ⟨h.arrays ++ [h.readArr ref]⟩)

/-- The `Result` class over the heap model: the private `_resultList` field is
a reference to the internal array. -/
structure ResultRef where
  _resultList : Nat

/-- `Result.getResultList` over the heap model (src/Result.ts lines 75-77):
`return this._resultList.slice()` — a fresh copy of the internal array. -/
def ResultRef.getResultList (r : ResultRef) (h : Heap) : Nat × Heap :=
  h.slice r._resultList

/-- Modelled from the spec: a `ResultStream` (spec section 4.2, `asStream`) is bound to
a transaction id, the communicator and the first page; its implementation is
not among the sources (only `Result.bufferResultStream` consumes it). -/
structure ResultStream where
  txnId : String
  communicator : Communicator
  firstPage : Page

/-- Modelled from the spec (section 4.2 `asStream`): the readers a `ResultStream`
emits as `data` events, in order — each value of the current page decoded, then,
while a continuation token is present, one fetch-page call per subsequent page
and that page's values; a decode failure surfaces as the stream's error.
Fuel-indexed like `_fetchResultPages`; `none` marks an infinite token chain. -/
def Result.streamReaders (txnId : String) (communicator : Communicator) :
    Nat → Page → Option (Except ClientException (List Reader))
  | fuel, page =>
    match page.NextPageToken with
    | none => some (Result.readHolders (Result.pageValues page))
    | some tok =>
      match fuel with
      | 0 => none
      | fuel + 1 =>
        (Result.streamReaders txnId communicator fuel
            ((communicator.fetchPage txnId tok)).Page).map
          (fun rest => (Result.readHolders (Result.pageValues page)).bind
            (fun here => rest.map (fun more => here ++ more)))

/-- `Result._readResultStream` (src/Result.ts lines 134-143): collect every
reader the stream emits as a `data` event, in order, resolving on `end`. -/
def Result._readResultStream (resultStream : ResultStream) (fuel : Nat) :
    Option (Except ClientException (List Reader)) :=
  Result.streamReaders resultStream.txnId resultStream.communicator fuel
    resultStream.firstPage

/-- `Result.bufferResultStream` (src/Result.ts lines 66-69): read the whole
stream and wrap the reader list in a `Result`. -/
def Result.bufferResultStream (resultStream : ResultStream) (fuel : Nat) :
    Option (Except ClientException Result) :=
  (Result._readResultStream resultStream fuel).map (fun e => e.map Result.mk)

/-- The error kinds of the retry taxonomy (spec section 7), as the driver
classifies them. -/
inductive ErrorKind where
  | occConflict
  | invalidSession
  | retryableTransport
  | nonRetryable
deriving DecidableEq, Repr

/-- Modelled from the spec (section 7): which kinds the driver retries. -/
def ErrorKind.retryable : ErrorKind → Bool
  | .occConflict => true
  | .invalidSession => true
  | .retryableTransport => true
  | .nonRetryable => false

/-- What `Driver.execute` surfaces on failure: the classified error as is, or,
once the retry budget is exhausted, wrapped as retries-exhausted with the
original kind preserved (spec sections 4.5 and 7). -/
inductive DriverError where
  | direct (kind : ErrorKind)
  | retriesExhausted (kind : ErrorKind)
deriving DecidableEq, Repr

/-- Modelled from the spec: the retry loop of `Driver.execute` (spec section 4.5).
The driver sources are not among the files; per the spec, each attempt starts a
fresh `runTransaction` (so a fresh service-assigned transaction id, modelled by
the attempt counter), a success returns at once, a retryable failure retries
while further attempts remain, a non-retryable failure propagates at once, and
an exhausted budget surfaces the last error wrapped as retries-exhausted.
`fn attempt` is the classified outcome of invoking the transactional function
on that attempt; `rest` is the number of further attempts allowed. Returns the
outcome and the transaction ids used, one per invocation, in order. -/
def runAttempts {α : Type} (fn : Nat → Except ErrorKind α) :
    Nat → Nat → Except DriverError α × List Nat
  | attempt, rest =>
    match fn attempt with
    | .ok v => (.ok v, [attempt])
    | .error k =>
      if k.retryable then
        match rest with
        | 0 => (.error (.retriesExhausted k), [attempt])
        | rest + 1 =>
          let next := runAttempts fn (attempt + 1) rest
          (next.1, attempt :: next.2)
      else (.error (.direct k), [attempt])

/-- Modelled from the spec: `Driver.execute` with bound `maxAttempts` (attempts
are counted from 1; `maxAttempts - 1` further attempts may follow the first). -/
def Driver.execute {α : Type} (maxAttempts : Nat) (fn : Nat → Except ErrorKind α) :
    Except DriverError α × List Nat :=
  runAttempts fn 1 (maxAttempts - 1)

namespace Result

theorem hasValues_false_pageValues {p : Page} (h : hasValues p = false) :
    pageValues p = [] := by
  unfold hasValues at h
  unfold pageValues
  cases hv : p.Values with
  | none => rfl
  | some vs =>
    rw [hv] at h
    simp only [decide_eq_false_iff_not, Nat.not_lt, Nat.le_zero,
      List.length_eq_zero] at h
    simp [h]

theorem pushValues_of_hasValues_false {p : Page} (h : hasValues p = false)
    (acc : List (List ValueHolder)) : pushValues acc p = acc := by
  unfold pushValues
  simp [h]

theorem foldl_pushValues (ps : List Page) :
    ∀ acc, ps.foldl pushValues acc = acc ++ (ps.filter hasValues).map pageValues := by
  induction ps with
  | nil => intro acc; simp
  | cons p rest ih =>
    intro acc
    simp only [List.foldl_cons, ih (pushValues acc p), List.filter_cons]
    by_cases h : hasValues p
    · simp [pushValues, h]
    · simp only [Bool.not_eq_true] at h
      simp [pushValues, h]

theorem readHolders_append (a b : List ValueHolder) :
    readHolders (a ++ b)
      = (readHolders a).bind (fun x => (readHolders b).map (fun y => x ++ y)) := by
  induction a with
  | nil =>
    simp only [List.nil_append, readHolders, Except.bind]
    cases readHolders b <;> rfl
  | cons v vs ih =>
    simp only [List.cons_append, readHolders, List.append_eq, ih]
    cases _handleBlob v.IonBinary with
    | error e => rfl
    | ok n =>
      cases readHolders vs with
      | error e => rfl
      | ok rest =>
        cases readHolders b <;> rfl

theorem buildReaderList_eq_readHolders_flatten (l : List (List ValueHolder)) :
    buildReaderList l = readHolders l.flatten := by
  induction l with
  | nil => rfl
  | cons vs rest ih =>
    simp only [buildReaderList, ih, List.flatten_cons, readHolders_append]
    cases readHolders vs with
    | error e => rfl
    | ok x =>
      cases readHolders rest.flatten <;> rfl

theorem filter_pageValues_flatten (ps : List Page) :
    (((ps.filter hasValues).map pageValues)).flatten = ((ps.map pageValues)).flatten := by
  induction ps with
  | nil => rfl
  | cons p rest ih =>
    simp only [List.filter_cons]
    by_cases h : hasValues p
    · simp [h, ih]
    · simp only [Bool.not_eq_true] at h
      simp [h, ih, hasValues_false_pageValues h]

theorem fetchLoop_eq_of_none (txnId : String) (communicator : Communicator)
    (fuel : Nat) (p : Page) (acc : List (List ValueHolder))
    (h : p.NextPageToken = none) :
    fetchLoop txnId communicator fuel p acc = some (acc, 0) := by
  unfold fetchLoop
  rw [h]

theorem fetchLoop_eq_of_some_zero (txnId : String) (communicator : Communicator)
    (p : Page) (acc : List (List ValueHolder)) (tok : String)
    (h : p.NextPageToken = some tok) :
    fetchLoop txnId communicator 0 p acc = none := by
  unfold fetchLoop
  rw [h]

theorem fetchLoop_eq_of_some_succ (txnId : String) (communicator : Communicator)
    (fuel : Nat) (p : Page) (acc : List (List ValueHolder)) (tok : String)
    (h : p.NextPageToken = some tok) :
    fetchLoop txnId communicator (fuel + 1) p acc
      = (fetchLoop txnId communicator fuel ((communicator.fetchPage txnId tok)).Page
          (pushValues acc ((communicator.fetchPage txnId tok)).Page)).map
        (fun r => (r.1, r.2 + 1)) := by
  conv_lhs => rw [fetchLoop]
  rw [h]

theorem fetchLoop_chain (txnId : String) (communicator : Communicator) :
    ∀ (rest : List Page) (p : Page) (acc : List (List ValueHolder)) (fuel : Nat),
      PageChain txnId communicator (p :: rest) → rest.length ≤ fuel →
      fetchLoop txnId communicator fuel p acc = some (rest.foldl pushValues acc, rest.length) := by
  intro rest
  induction rest with
  | nil =>
    intro p acc fuel hchain _
    exact fetchLoop_eq_of_none txnId communicator fuel p acc hchain
  | cons q rest' ih =>
    intro p acc fuel hchain hfuel
    obtain ⟨⟨tok, htok, hfetch⟩, hrest⟩ := hchain
    simp only [List.length_cons] at hfuel
    obtain ⟨f, rfl⟩ : ∃ f, fuel = f + 1 := ⟨fuel - 1, by omega⟩
    rw [fetchLoop_eq_of_some_succ txnId communicator f p acc tok htok, hfetch,
      ih q (pushValues acc q) f hrest (by omega)]
    rfl

theorem fetchLoop_chain_filter (txnId : String) (communicator : Communicator)
    (p : Page) (rest : List Page) (fuel : Nat)
    (hchain : PageChain txnId communicator (p :: rest)) (hfuel : rest.length ≤ fuel) :
    fetchLoop txnId communicator fuel p (pushValues [] p)
      = some ((((p :: rest).filter hasValues).map pageValues), rest.length) := by
  rw [fetchLoop_chain txnId communicator rest p (pushValues [] p) fuel hchain hfuel,
    foldl_pushValues]
  have : pushValues [] p ++ ((rest.filter hasValues).map pageValues)
      = (((p :: rest).filter hasValues).map pageValues) := by
    simp only [List.filter_cons]
    by_cases h : hasValues p
    · simp [pushValues, h]
    · simp only [Bool.not_eq_true] at h
      simp [pushValues, h]
  rw [this]

end Result

namespace Result

theorem pushValues_eq_append (acc : List (List ValueHolder)) (p : Page) :
    pushValues acc p = acc ++ pushValues [] p := by
  unfold pushValues
  by_cases h : hasValues p <;> simp [h]

theorem buildReaderList_append (a b : List (List ValueHolder)) :
    buildReaderList (a ++ b)
      = (buildReaderList a).bind (fun x => (buildReaderList b).map (fun y => x ++ y)) := by
  induction a with
  | nil =>
    simp only [List.nil_append, buildReaderList, Except.bind]
    cases buildReaderList b <;> rfl
  | cons vs rest ih =>
    simp only [List.cons_append, buildReaderList, List.append_eq, ih]
    cases readHolders vs with
    | error e => rfl
    | ok x =>
      cases buildReaderList rest with
      | error e => rfl
      | ok y =>
        cases buildReaderList b with
        | error e => rfl
        | ok z =>
          show Except.ok (x ++ (y ++ z)) = Except.ok ((x ++ y) ++ z)
          rw [List.append_assoc]

theorem buildReaderList_pushValues_nil (p : Page) :
    buildReaderList (pushValues [] p) = readHolders (pageValues p) := by
  by_cases h : hasValues p
  · unfold pushValues
    rw [if_pos h]
    simp only [List.nil_append, buildReaderList]
    cases readHolders (pageValues p) with
    | error e => rfl
    | ok rs =>
      show Except.ok (rs ++ []) = Except.ok rs
      rw [List.append_nil]
  · rw [pushValues_of_hasValues_false (Bool.not_eq_true _ ▸ h),
      hasValues_false_pageValues (Bool.not_eq_true _ ▸ h)]
    rfl

theorem fetchLoop_acc (txnId : String) (communicator : Communicator) :
    ∀ (fuel : Nat) (p : Page) (acc : List (List ValueHolder)),
      fetchLoop txnId communicator fuel p acc
        = (fetchLoop txnId communicator fuel p []).map (fun r => (acc ++ r.1, r.2)) := by
  intro fuel
  induction fuel with
  | zero =>
    intro p acc
    cases h : p.NextPageToken with
    | none =>
      rw [fetchLoop_eq_of_none txnId communicator 0 p acc h,
        fetchLoop_eq_of_none txnId communicator 0 p [] h]
      simp
    | some tok =>
      rw [fetchLoop_eq_of_some_zero txnId communicator p acc tok h,
        fetchLoop_eq_of_some_zero txnId communicator p [] tok h]
      rfl
  | succ f ih =>
    intro p acc
    cases h : p.NextPageToken with
    | none =>
      rw [fetchLoop_eq_of_none txnId communicator (f + 1) p acc h,
        fetchLoop_eq_of_none txnId communicator (f + 1) p [] h]
      simp
    | some tok =>
      rw [fetchLoop_eq_of_some_succ txnId communicator f p acc tok h,
        fetchLoop_eq_of_some_succ txnId communicator f p [] tok h,
        ih ((communicator.fetchPage txnId tok)).Page
          (pushValues acc ((communicator.fetchPage txnId tok)).Page),
        ih ((communicator.fetchPage txnId tok)).Page
          (pushValues [] ((communicator.fetchPage txnId tok)).Page)]
      cases fetchLoop txnId communicator f ((communicator.fetchPage txnId tok)).Page [] with
      | none => rfl
      | some r =>
        simp only [Option.map, pushValues_eq_append acc
          ((communicator.fetchPage txnId tok)).Page, List.append_assoc]

theorem hasValues_normalizePage (p : Page) :
    hasValues (normalizePage p) = hasValues p := by
  unfold hasValues normalizePage pageValues
  cases p.Values <;> rfl

theorem pageValues_normalizePage (p : Page) :
    pageValues (normalizePage p) = pageValues p := by
  unfold normalizePage pageValues
  cases p.Values <;> rfl

theorem pushValues_normalizePage (acc : List (List ValueHolder)) (p : Page) :
    pushValues acc (normalizePage p) = pushValues acc p := by
  unfold pushValues
  rw [hasValues_normalizePage, pageValues_normalizePage]

theorem fetchLoop_normalize (txnId : String) (communicator : Communicator) :
    ∀ (fuel : Nat) (p : Page) (acc : List (List ValueHolder)),
      fetchLoop txnId (normalizeComm communicator) fuel (normalizePage p) acc
        = fetchLoop txnId communicator fuel p acc := by
  intro fuel
  induction fuel with
  | zero =>
    intro p acc
    cases h : p.NextPageToken with
    | none =>
      rw [fetchLoop_eq_of_none txnId (normalizeComm communicator) 0 (normalizePage p) acc h,
        fetchLoop_eq_of_none txnId communicator 0 p acc h]
    | some tok =>
      rw [fetchLoop_eq_of_some_zero txnId (normalizeComm communicator) (normalizePage p) acc tok h,
        fetchLoop_eq_of_some_zero txnId communicator p acc tok h]
  | succ f ih =>
    intro p acc
    cases h : p.NextPageToken with
    | none =>
      rw [fetchLoop_eq_of_none txnId (normalizeComm communicator) (f + 1) (normalizePage p) acc h,
        fetchLoop_eq_of_none txnId communicator (f + 1) p acc h]
    | some tok =>
      rw [fetchLoop_eq_of_some_succ txnId (normalizeComm communicator) f (normalizePage p) acc tok h,
        fetchLoop_eq_of_some_succ txnId communicator f p acc tok h]
      show (fetchLoop txnId (normalizeComm communicator) f
          (normalizePage ((communicator.fetchPage txnId tok)).Page)
          (pushValues acc (normalizePage ((communicator.fetchPage txnId tok)).Page))).map _ = _
      rw [pushValues_normalizePage, ih]

end Result

namespace Result

theorem streamReaders_eq_of_none (txnId : String) (communicator : Communicator)
    (fuel : Nat) (p : Page) (h : p.NextPageToken = none) :
    streamReaders txnId communicator fuel p = some (readHolders (pageValues p)) := by
  unfold streamReaders
  rw [h]

theorem streamReaders_eq_of_some_zero (txnId : String) (communicator : Communicator)
    (p : Page) (tok : String) (h : p.NextPageToken = some tok) :
    streamReaders txnId communicator 0 p = none := by
  unfold streamReaders
  rw [h]

theorem streamReaders_eq_of_some_succ (txnId : String) (communicator : Communicator)
    (fuel : Nat) (p : Page) (tok : String) (h : p.NextPageToken = some tok) :
    streamReaders txnId communicator (fuel + 1) p
      = (streamReaders txnId communicator fuel ((communicator.fetchPage txnId tok)).Page).map
          (fun rest => (readHolders (pageValues p)).bind
            (fun here => rest.map (fun more => here ++ more))) := by
  conv_lhs => rw [streamReaders]
  rw [h]

theorem streamReaders_eq_fetchResultPages (txnId : String) (communicator : Communicator) :
    ∀ (fuel : Nat) (p : Page),
      streamReaders txnId communicator fuel p
        = _fetchResultPages txnId p communicator fuel := by
  intro fuel
  induction fuel with
  | zero =>
    intro p
    cases h : p.NextPageToken with
    | none =>
      rw [streamReaders_eq_of_none txnId communicator 0 p h]
      unfold _fetchResultPages
      rw [fetchLoop_eq_of_none txnId communicator 0 p (pushValues [] p) h]
      show _ = some (buildReaderList (pushValues [] p))
      rw [buildReaderList_pushValues_nil]
    | some tok =>
      rw [streamReaders_eq_of_some_zero txnId communicator p tok h]
      unfold _fetchResultPages
      rw [fetchLoop_eq_of_some_zero txnId communicator p (pushValues [] p) tok h]
      rfl
  | succ f ih =>
    intro p
    cases h : p.NextPageToken with
    | none =>
      rw [streamReaders_eq_of_none txnId communicator (f + 1) p h]
      unfold _fetchResultPages
      rw [fetchLoop_eq_of_none txnId communicator (f + 1) p (pushValues [] p) h]
      show _ = some (buildReaderList (pushValues [] p))
      rw [buildReaderList_pushValues_nil]
    | some tok =>
      rw [streamReaders_eq_of_some_succ txnId communicator f p tok h, ih]
      unfold _fetchResultPages
      rw [fetchLoop_eq_of_some_succ txnId communicator f p (pushValues [] p) tok h]
      rw [fetchLoop_acc txnId communicator f ((communicator.fetchPage txnId tok)).Page
        (pushValues (pushValues [] p) ((communicator.fetchPage txnId tok)).Page)]
      rw [fetchLoop_acc txnId communicator f ((communicator.fetchPage txnId tok)).Page
        (pushValues [] ((communicator.fetchPage txnId tok)).Page)]
      cases fetchLoop txnId communicator f ((communicator.fetchPage txnId tok)).Page [] with
      | none => rfl
      | some r =>
        show some ((readHolders (pageValues p)).bind
            (fun here => (buildReaderList
              (pushValues [] ((communicator.fetchPage txnId tok)).Page ++ r.1)).map
              (fun more => here ++ more)))
          = some (buildReaderList
              (pushValues (pushValues [] p) ((communicator.fetchPage txnId tok)).Page ++ r.1))
        rw [pushValues_eq_append (pushValues [] p)
          ((communicator.fetchPage txnId tok)).Page, List.append_assoc]
        simp only [buildReaderList_append, buildReaderList_pushValues_nil]

end Result

theorem runAttempts_eq_of_ok {α : Type} (fn : Nat → Except ErrorKind α)
    (attempt rest : Nat) (v : α) (h : fn attempt = .ok v) :
    runAttempts fn attempt rest = (.ok v, [attempt]) := by
  unfold runAttempts
  rw [h]

theorem runAttempts_eq_of_retryable_zero {α : Type} (fn : Nat → Except ErrorKind α)
    (attempt : Nat) (k : ErrorKind) (h : fn attempt = .error k)
    (hk : k.retryable = true) :
    runAttempts fn attempt 0 = (.error (.retriesExhausted k), [attempt]) := by
  unfold runAttempts
  rw [h]
  simp [hk]

theorem runAttempts_eq_of_retryable_succ {α : Type} (fn : Nat → Except ErrorKind α)
    (attempt rest : Nat) (k : ErrorKind) (h : fn attempt = .error k)
    (hk : k.retryable = true) :
    runAttempts fn attempt (rest + 1)
      = ((runAttempts fn (attempt + 1) rest).1,
          attempt :: (runAttempts fn (attempt + 1) rest).2) := by
  conv_lhs => rw [runAttempts]
  rw [h]
  simp [hk]

theorem runAttempts_occ_then_ok {α : Type} (fn : Nat → Except ErrorKind α)
    (N : Nat) (v : α) :
    ∀ (rest attempt : Nat), attempt ≤ N → N ≤ attempt + rest →
      (∀ i, attempt ≤ i → i < N → fn i = .error .occConflict) →
      fn N = .ok v →
      runAttempts fn attempt rest = (.ok v, List.range' attempt (N - attempt + 1)) := by
  intro rest
  induction rest with
  | zero =>
    intro attempt h1 h2 _ hok
    have ha : attempt = N := by omega
    subst ha
    rw [runAttempts_eq_of_ok fn attempt 0 v hok]
    simp
  | succ r ih =>
    intro attempt h1 h2 herr hok
    by_cases ha : attempt = N
    · subst ha
      rw [runAttempts_eq_of_ok fn attempt (r + 1) v hok]
      simp
    · have hlt : attempt < N := by omega
      rw [runAttempts_eq_of_retryable_succ fn attempt r .occConflict
        (herr attempt le_rfl hlt) rfl,
        ih (attempt + 1) (by omega) (by omega)
          (fun i hi hilt => herr i (by omega) hilt) hok]
      have hn : N - attempt + 1 = (N - (attempt + 1) + 1) + 1 := by omega
      rw [hn, List.range'_succ]
      rfl

theorem runAttempts_exhaust {α : Type} (fn : Nat → Except ErrorKind α)
    (k : Nat → ErrorKind) :
    ∀ (rest attempt : Nat),
      (∀ i, attempt ≤ i → i ≤ attempt + rest →
        fn i = .error (k i) ∧ (k i).retryable = true) →
      runAttempts fn attempt rest
        = (.error (.retriesExhausted (k (attempt + rest))),
            List.range' attempt (rest + 1)) := by
  intro rest
  induction rest with
  | zero =>
    intro attempt h
    obtain ⟨he, hr⟩ := h attempt le_rfl (by omega)
    rw [runAttempts_eq_of_retryable_zero fn attempt (k attempt) he hr]
    simp
  | succ r ih =>
    intro attempt h
    obtain ⟨he, hr⟩ := h attempt le_rfl (by omega)
    rw [runAttempts_eq_of_retryable_succ fn attempt r (k attempt) he hr,
      ih (attempt + 1) (fun i hi hle => h i (by omega) (by omega))]
    have hsum : attempt + 1 + r = attempt + (r + 1) := by omega
    rw [hsum, List.range'_succ]
    rfl

theorem set_concat_length {α : Type} (l : List α) (x v : α) :
    (l ++ [x]).set l.length v = l ++ [v] := by
  induction l with
  | nil => rfl
  | cons a l ih =>
    show a :: (l ++ [x]).set l.length v = a :: (l ++ [v])
    rw [ih]

/-- C1: for every finite page chain of N pages (N ≥ 1) realized by the
communicator, `Result.create` returns a buffered `Result` whose
`getResultList()` is the concatenation of all pages' values in page order,
each value decoded into a `Reader`, with the order of values within each page
preserved (`hdec` states that decoding that concatenation yields `rs`). -/
theorem create_buffers_page_concatenation (txnId : String)
    (communicator : Communicator) (p : Page) (rest : List Page) (fuel : Nat)
    (rs : List Reader)
    (hchain : PageChain txnId communicator (p :: rest))
    (hfuel : rest.length ≤ fuel)
    (hdec : Result.readHolders (((p :: rest).map Result.pageValues)).flatten
      = .ok rs) :
    Result.create txnId p communicator fuel = some (.ok ⟨rs⟩)
      ∧ Result.getResultList ⟨rs⟩ = rs := by
  refine ⟨?_, rfl⟩
  unfold Result.create Result._fetchResultPages
  rw [Result.fetchLoop_chain_filter txnId communicator p rest fuel hchain hfuel]
  show some ((Result.buildReaderList
      (((p :: rest).filter Result.hasValues).map Result.pageValues)).map Result.mk)
    = some (.ok ⟨rs⟩)
  rw [Result.buildReaderList_eq_readHolders_flatten, Result.filter_pageValues_flatten,
    hdec]
  rfl

/-- Witness for C1 at a concrete two-page chain: one buffer value on the first
page, one string value on the second. -/
theorem create_buffers_page_concatenation_witness :
    Result.create "txn"
        (Page.mk (some [ValueHolder.mk (IonBinary.buffer [1])]) (some "t"))
        (Communicator.mk (fun _ _ => FetchPageResult.mk
          (Page.mk (some [ValueHolder.mk (IonBinary.str "a")]) none))) 1
      = some (.ok ⟨[⟨[1]⟩, ⟨[97]⟩]⟩)
      ∧ Result.getResultList ⟨[⟨[1]⟩, ⟨[97]⟩]⟩ = [⟨[1]⟩, ⟨[97]⟩] :=
  create_buffers_page_concatenation "txn"
    (Communicator.mk (fun _ _ => FetchPageResult.mk
      (Page.mk (some [ValueHolder.mk (IonBinary.str "a")]) none)))
    (Page.mk (some [ValueHolder.mk (IonBinary.buffer [1])]) (some "t"))
    [Page.mk (some [ValueHolder.mk (IonBinary.str "a")]) none] 1
    [⟨[1]⟩, ⟨[97]⟩] ⟨⟨"t", rfl, rfl⟩, rfl⟩ (by decide) rfl

/-- C3: a page with zero values carrying a continuation token contributes
nothing to the buffered sequence (no empty placeholder: its `pushValues` is the
identity) and pagination continues with the fetched next page, even when the
empty page is the first one. -/
theorem empty_page_skipped_not_terminating (txnId : String)
    (communicator : Communicator) (p : Page) (tok : String) (fuel : Nat)
    (hv : Result.hasValues p = false) (ht : p.NextPageToken = some tok) :
    Result._fetchResultPages txnId p communicator (fuel + 1)
        = Result._fetchResultPages txnId ((communicator.fetchPage txnId tok)).Page
            communicator fuel
      ∧ (∀ acc, Result.pushValues acc p = acc) := by
  refine ⟨?_, fun acc => Result.pushValues_of_hasValues_false hv acc⟩
  unfold Result._fetchResultPages
  rw [Result.fetchLoop_eq_of_some_succ txnId communicator fuel p
    (Result.pushValues [] p) tok ht, Result.pushValues_of_hasValues_false hv]
  cases Result.fetchLoop txnId communicator fuel
    ((communicator.fetchPage txnId tok)).Page
    (Result.pushValues [] ((communicator.fetchPage txnId tok)).Page) <;> rfl

/-- Witness for C3: a first page with an explicit empty `Values` list and a
continuation token. -/
theorem empty_page_skipped_not_terminating_witness :
    Result._fetchResultPages "txn" (Page.mk (some []) (some "t"))
        (Communicator.mk (fun _ _ => FetchPageResult.mk
          (Page.mk (some [ValueHolder.mk (IonBinary.buffer [7])]) none))) 1
      = Result._fetchResultPages "txn"
          (Page.mk (some [ValueHolder.mk (IonBinary.buffer [7])]) none)
          (Communicator.mk (fun _ _ => FetchPageResult.mk
            (Page.mk (some [ValueHolder.mk (IonBinary.buffer [7])]) none))) 0
      ∧ (∀ acc, Result.pushValues acc (Page.mk (some []) (some "t")) = acc) :=
  empty_page_skipped_not_terminating "txn"
    (Communicator.mk (fun _ _ => FetchPageResult.mk
      (Page.mk (some [ValueHolder.mk (IonBinary.buffer [7])]) none)))
    (Page.mk (some []) (some "t")) "t" 0 rfl rfl

/-- C5: over a finite chain of N = `rest.length + 1` pages whose last page has
no continuation token, the buffering loop makes exactly N - 1 = `rest.length`
`fetchPage` calls, and at a page without a continuation token it terminates at
once with zero calls. -/
theorem fetch_called_once_per_continuation (txnId : String)
    (communicator : Communicator) (p : Page) (rest : List Page) (fuel : Nat)
    (hchain : PageChain txnId communicator (p :: rest))
    (hfuel : rest.length ≤ fuel) :
    (Result.fetchLoop txnId communicator fuel p (Result.pushValues [] p)).map
        Prod.snd
      = some rest.length
      ∧ (∀ (q : Page) (acc : List (List ValueHolder)) (f : Nat),
          q.NextPageToken = none →
          Result.fetchLoop txnId communicator f q acc = some (acc, 0)) := by
  refine ⟨?_, fun q acc f hq =>
    Result.fetchLoop_eq_of_none txnId communicator f q acc hq⟩
  rw [Result.fetchLoop_chain_filter txnId communicator p rest fuel hchain hfuel]
  rfl

/-- Witness for C5 at a concrete two-page chain: exactly one fetch call. -/
theorem fetch_called_once_per_continuation_witness :
    (Result.fetchLoop "txn"
        (Communicator.mk (fun _ _ => FetchPageResult.mk
          (Page.mk (some [ValueHolder.mk (IonBinary.buffer [7])]) none))) 1
        (Page.mk (some [ValueHolder.mk (IonBinary.buffer [1])]) (some "t"))
        (Result.pushValues []
          (Page.mk (some [ValueHolder.mk (IonBinary.buffer [1])]) (some "t")))).map
        Prod.snd
      = some 1
      ∧ (∀ (q : Page) (acc : List (List ValueHolder)) (f : Nat),
          q.NextPageToken = none →
          Result.fetchLoop "txn"
            (Communicator.mk (fun _ _ => FetchPageResult.mk
              (Page.mk (some [ValueHolder.mk (IonBinary.buffer [7])]) none))) f q acc
            = some (acc, 0)) := by
  have h := fetch_called_once_per_continuation "txn"
    (Communicator.mk (fun _ _ => FetchPageResult.mk
      (Page.mk (some [ValueHolder.mk (IonBinary.buffer [7])]) none)))
    (Page.mk (some [ValueHolder.mk (IonBinary.buffer [1])]) (some "t"))
    [Page.mk (some [ValueHolder.mk (IonBinary.buffer [7])]) none] 1
    ⟨⟨"t", rfl, rfl⟩, rfl⟩ (by decide)
  exact h

/-- C6: the streaming presentation yields exactly the ordered value sequence of
the buffered presentation: `bufferResultStream` over a stream bound to a page
chain equals `Result.create` over the same chain, for every fuel (so also on
infinite chains both diverge alike). -/
theorem bufferResultStream_eq_create (txnId : String) (communicator : Communicator)
    (page : Page) (fuel : Nat) :
    Result.bufferResultStream ⟨txnId, communicator, page⟩ fuel
      = Result.create txnId page communicator fuel := by
  unfold Result.bufferResultStream Result._readResultStream Result.create
  rw [Result.streamReaders_eq_fetchResultPages]

/-- C10: a page whose `Values` field is absent is treated exactly like a page
with an explicit empty list of values: normalizing absent fields to `[]`
anywhere in the chain leaves `_fetchResultPages` unchanged (so such pages
contribute nothing and, their tokens being preserved, pagination continues),
and such a page's `pushValues` is the identity. -/
theorem absent_values_field_like_empty (txnId : String)
    (communicator : Communicator) (p : Page) (fuel : Nat) :
    Result._fetchResultPages txnId (normalizePage p) (normalizeComm communicator)
        fuel
      = Result._fetchResultPages txnId p communicator fuel
      ∧ (∀ (acc : List (List ValueHolder)) (t : Option String),
          Result.pushValues acc (Page.mk none t) = acc) := by
  constructor
  · unfold Result._fetchResultPages
    rw [Result.pushValues_normalizePage, Result.fetchLoop_normalize]
  · intro acc t
    exact @Result.pushValues_of_hasValues_false (Page.mk none t) rfl acc

/-- Counterexample to C2 as stated: the `ClientException` thrown for an
unrecognized payload representation carries the message
"Unexpected Blob returned from QLDB.", not "unexpected payload representation". -/
theorem handleBlob_message_counterexample :
    Result._handleBlob (IonBinary.blob [])
        = Except.error (ClientException.mk "Unexpected Blob returned from QLDB.")
      ∧ Result._handleBlob (IonBinary.blob [])
          ≠ Except.error (ClientException.mk "unexpected payload representation") := by
  refine ⟨rfl, ?_⟩
  intro h
  have : ClientException.mk "Unexpected Blob returned from QLDB."
      = ClientException.mk "unexpected payload representation" :=
    Except.error.inj h
  exact absurd (congrArg ClientException.message this) (by decide)

/-- C2 (amended): a payload is accepted exactly when it is one of the three
byte-like representations, all three decode identically when they carry the
same bytes, and any other representation raises a `ClientException` whose
message is "Unexpected Blob returned from QLDB." (the message the code throws,
not the one the claim quotes), with no `Result` produced. -/
theorem handleBlob_accepts_exactly_byte_like (ib : IonBinary) :
    ((∃ n, Result._handleBlob ib = .ok n) ↔ isByteLike ib = true)
      ∧ (isByteLike ib = false →
          Result._handleBlob ib
            = .error (ClientException.mk "Unexpected Blob returned from QLDB."))
      ∧ (∀ (b : List Nat) (s : String), s.data.map Char.toNat = b →
          (Result._handleBlob (IonBinary.buffer b)).map makeReader
              = (Result._handleBlob (IonBinary.uint8Array b)).map makeReader
            ∧ (Result._handleBlob (IonBinary.uint8Array b)).map makeReader
              = (Result._handleBlob (IonBinary.str s)).map makeReader)
      ∧ (∀ (txnId : String) (communicator : Communicator) (fuel : Nat)
          (bytes : List Nat),
          Result.create txnId (Page.mk (some [ValueHolder.mk (IonBinary.blob bytes)]) none)
              communicator fuel
            = some (.error
                (ClientException.mk "Unexpected Blob returned from QLDB."))) := by
  refine ⟨?_, ?_, ?_, ?_⟩
  · cases ib <;> simp [Result._handleBlob, isByteLike]
  · intro h
    cases ib <;> simp_all [Result._handleBlob, isByteLike]
  · intro b s hbs
    refine ⟨rfl, ?_⟩
    show Except.ok (makeReader (NormalizedBinary.uint8Array b))
      = Except.ok (makeReader (NormalizedBinary.str s))
    simp [makeReader, NormalizedBinary.content, hbs]
  · intro txnId communicator fuel bytes
    unfold Result.create Result._fetchResultPages
    rw [Result.fetchLoop_eq_of_none txnId communicator fuel _ _ rfl]
    rfl

/-- Witness for C2 (amended) at the byte content of the one-character string
"a": the three representations decode to the same reader, and a blob payload
yields the error with the message the code throws. -/
theorem handleBlob_accepts_exactly_byte_like_witness :
    ((Result._handleBlob (IonBinary.buffer [97])).map makeReader
        = (Result._handleBlob (IonBinary.uint8Array [97])).map makeReader
      ∧ (Result._handleBlob (IonBinary.uint8Array [97])).map makeReader
        = (Result._handleBlob (IonBinary.str "a")).map makeReader)
      ∧ (isByteLike (IonBinary.blob [97]) = false →
          Result._handleBlob (IonBinary.blob [97])
            = .error (ClientException.mk "Unexpected Blob returned from QLDB.")) :=
  ⟨(handleBlob_accepts_exactly_byte_like (IonBinary.str "a")).2.2.1 [97] "a" (by decide),
    (handleBlob_accepts_exactly_byte_like (IonBinary.blob [97])).2.1⟩

/-- C4: operations on an already-created buffered `Result` are pure: any number
of subsequent `getResultList()` calls leaves the trace of `Communicator`
fetch calls unchanged, and every call returns the same materialized sequence. -/
theorem getResultList_issues_no_calls (r : Result) (n : Nat)
    (trace : List FetchCall) :
    (Result.iterGetResultList r n trace).2 = trace
      ∧ ∀ out ∈ (Result.iterGetResultList r n trace).1,
          out = Result.getResultList r := by
  induction n generalizing trace with
  | zero =>
    refine ⟨rfl, ?_⟩
    intro out hout
    simp [Result.iterGetResultList] at hout
  | succ m ih =>
    refine ⟨(ih trace).1, ?_⟩
    intro out hout
    have hout' : out ∈ Result.getResultList r
        :: (Result.iterGetResultList r m trace).1 := hout
    rcases List.mem_cons.mp hout' with h | h
    · exact h
    · exact (ih trace).2 out h

/-- Witness for C4: two consecutive calls on a one-element result, empty
initial trace. -/
theorem getResultList_issues_no_calls_witness :
    (Result.iterGetResultList (Result.mk [Reader.mk [1]]) 2 []).2 = []
      ∧ ∀ out ∈ (Result.iterGetResultList (Result.mk [Reader.mk [1]]) 2 []).1,
          out = Result.getResultList (Result.mk [Reader.mk [1]]) :=
  getResultList_issues_no_calls (Result.mk [Reader.mk [1]]) 2 []

/-- C7: a transactional function failing with the OCC-conflict kind on the
first N - 1 attempts and succeeding on attempt N ≤ maxAttempts makes
`Driver.execute` return the success value; the function body runs exactly N
times, each invocation in a distinct, fresh transaction (the transaction ids
used are pairwise distinct). -/
theorem execute_occ_retries_then_succeeds {α : Type} (fn : Nat → Except ErrorKind α)
    (N maxAttempts : Nat) (v : α)
    (hN : 1 ≤ N) (hmax : N ≤ maxAttempts)
    (herr : ∀ i, 1 ≤ i → i < N → fn i = .error .occConflict)
    (hok : fn N = .ok v) :
    (Driver.execute maxAttempts fn).1 = .ok v
      ∧ (Driver.execute maxAttempts fn).2.length = N
      ∧ (Driver.execute maxAttempts fn).2.Nodup := by
  have h := runAttempts_occ_then_ok fn N v (maxAttempts - 1) 1 hN (by omega) herr hok
  unfold Driver.execute
  rw [h]
  refine ⟨rfl, ?_, List.nodup_range' _ _⟩
  simp only [List.length_range']
  omega

/-- Witness for C7: two OCC conflicts, success on the third of three allowed
attempts. -/
theorem execute_occ_retries_then_succeeds_witness :
    (Driver.execute 3 (fun i => if i = 3 then .ok 42 else .error .occConflict)).1
        = .ok 42
      ∧ (Driver.execute 3
          (fun i => if i = 3 then .ok 42 else .error .occConflict)).2.length = 3
      ∧ (Driver.execute 3
          (fun i => if i = 3 then .ok 42 else .error .occConflict)).2.Nodup :=
  execute_occ_retries_then_succeeds
    (fun i => if i = 3 then .ok 42 else .error .occConflict) 3 3 42
    (by decide) (by decide)
    (fun i h1 h2 => by
      have hne : i ≠ 3 := by omega
      simp [hne])
    rfl

/-- C8: a transactional function failing with a retryable kind on every attempt
makes `Driver.execute` with maxAttempts = M fail after exactly M invocations,
surfacing the last classified error wrapped as retries-exhausted with its kind
preserved. -/
theorem execute_exhausts_attempts {α : Type} (fn : Nat → Except ErrorKind α)
    (k : Nat → ErrorKind) (M : Nat) (hM : 1 ≤ M)
    (herr : ∀ i, 1 ≤ i → i ≤ M → fn i = .error (k i) ∧ (k i).retryable = true) :
    (Driver.execute M fn).1 = .error (.retriesExhausted (k M))
      ∧ (Driver.execute M fn).2.length = M := by
  have h := runAttempts_exhaust fn k (M - 1) 1
    (fun i hi hle => herr i hi (by omega))
  unfold Driver.execute
  rw [h]
  have h1 : 1 + (M - 1) = M := by omega
  refine ⟨by rw [h1], ?_⟩
  simp only [List.length_range']
  omega

/-- Witness for C8: persistent OCC conflicts with a budget of two attempts. -/
theorem execute_exhausts_attempts_witness :
    (Driver.execute 2 (fun _ => (.error .occConflict : Except ErrorKind Nat))).1
        = .error (.retriesExhausted .occConflict)
      ∧ (Driver.execute 2
          (fun _ => (.error .occConflict : Except ErrorKind Nat))).2.length = 2 :=
  execute_exhausts_attempts (fun _ => .error .occConflict)
    (fun _ => .occConflict) 2 (by decide)
    (fun i h1 h2 => ⟨rfl, rfl⟩)

/-- C9: `getResultList()` returns a fresh copy: the returned reference is
distinct from the internal one, its contents equal the internal contents (in
any heap, so also on every later call), and overwriting the returned array —
which subsumes push, pop and element replacement — leaves the internal list
unchanged. -/
theorem getResultList_returns_fresh_copy (r : ResultRef) (h : Heap)
    (hvalid : r._resultList < h.arrays.length) :
    (r.getResultList h).1 ≠ r._resultList
      ∧ (∀ h2 : Heap, ((r.getResultList h2).2).readArr (r.getResultList h2).1
          = h2.readArr r._resultList)
      ∧ (∀ v : List Reader,
          (((r.getResultList h).2).writeArr (r.getResultList h).1 v).readArr
              r._resultList
            = h.readArr r._resultList) := by
  refine ⟨?_, ?_, ?_⟩
  · exact (Nat.ne_of_lt hvalid).symm
  · intro h2
    show (h2.arrays ++ [h2.readArr r._resultList]).getD h2.arrays.length []
      = h2.readArr r._resultList
    rw [List.getD_append_right h2.arrays _ _ _ le_rfl, Nat.sub_self]
    rfl
  · intro v
    show ((h.arrays ++ [h.readArr r._resultList]).set h.arrays.length v).getD
        r._resultList []
      = h.readArr r._resultList
    rw [set_concat_length, List.getD_append h.arrays _ _ _ hvalid]
    rfl

/-- Witness for C9: a two-array heap whose second array is the internal list of
the result. -/
theorem getResultList_returns_fresh_copy_witness :
    (ResultRef.getResultList (ResultRef.mk 1)
          (Heap.mk [[], [Reader.mk [5]]])).1 ≠ 1
      ∧ (∀ h2 : Heap,
          ((ResultRef.getResultList (ResultRef.mk 1) h2).2).readArr
              (ResultRef.getResultList (ResultRef.mk 1) h2).1
            = h2.readArr 1)
      ∧ (∀ v : List Reader,
          (((ResultRef.getResultList (ResultRef.mk 1)
                (Heap.mk [[], [Reader.mk [5]]])).2).writeArr
              (ResultRef.getResultList (ResultRef.mk 1)
                (Heap.mk [[], [Reader.mk [5]]])).1 v).readArr 1
            = (Heap.mk [[], [Reader.mk [5]]]).readArr 1) :=
  getResultList_returns_fresh_copy (ResultRef.mk 1)
    (Heap.mk [[], [Reader.mk [5]]]) (by decide)
